import Mathlib

/-!
Verification of the name-similarity and scoring-aggregation engine of the
`namecast` repository.  The definitions below are a shallow embedding of
`src/brandval/evaluator.py` (the canonical evaluator module; the
`src/namecast/evaluator.py` variant shares the same scoring formulas).
Python strings are modelled as `List Char`, Python floats as `ℚ`, Python
dicts as association lists, and the external collaborators (WHOIS lookups,
the LLM oracle) as explicit function/`Except` parameters.
-/

namespace Brandval

/-- Lower-case a name character-wise; models the `name.lower()` calls of
`brandval/evaluator.py` (ASCII case mapping). -/
def lowerStr (s : List Char) : List Char := s.map Char.toLower

/-- Python substring containment `pat in s` (used for difficult-cluster and
unusual-combination checks). -/
def containsSub (pat s : List Char) : Bool :=
  (List.range (s.length + 1)).any (fun i => pat.isPrefixOf (s.drop i))

/-- Inner loop of `BrandEvaluator._levenshtein_distance`: given the previous
DP row (as a suffix starting at the current column) and the last value of the
current row, produce the rest of the current row.  The three candidates are
`insertions`, `deletions`, `substitutions` in the source's order. -/
def levInner (c1 : Char) : List Char → List Nat → Nat → List Nat
  | [], _, _ => []
  | _ :: _, [], _ => []
  | _ :: _, [_], _ => []
  | c2 :: rest, p0 :: p1 :: ps, cur =>
    let v := min (p1 + 1) (min (cur + 1) (p0 + (if c1 ≠ c2 then 1 else 0)))
    v :: levInner c1 rest (p1 :: ps) v

/-- Outer loop of `BrandEvaluator._levenshtein_distance`: one iteration per
character of `s1`, threading the previous row. -/
def levLoop (s2 : List Char) : List Char → Nat → List Nat → List Nat
  | [], _, prev => prev
  | c1 :: rest, i, prev => levLoop s2 rest (i + 1) ((i + 1) :: levInner c1 s2 prev (i + 1))

/-- Body of `BrandEvaluator._levenshtein_distance` after the argument swap:
the early return for an empty `s2`, then the row-by-row dynamic program,
returning `prev_row[-1]`. -/
def levCore (s1 s2 : List Char) : Nat :=
  if s2.length = 0 then s1.length
  else (levLoop s2 s1 0 (List.range (s2.length + 1))).getLastD 0

/-- `BrandEvaluator._levenshtein_distance`: swaps the arguments so that the
first is the longer one, then runs the dynamic program. -/
def levenshtein_distance (s1 s2 : List Char) : Nat :=
  if s1.length < s2.length then levCore s2 s1 else levCore s1 s2

/-- Python `str.replace(old, new)`: replace every non-overlapping occurrence
of `pat` in the third argument, scanning left to right (the guard on an
empty pattern is vacuous for the literal patterns of `_simplify_phonetic`). -/
def replaceAll (pat rep : List Char) : List Char → List Char
  | [] => []
  | c :: rest =>
    if pat ≠ [] ∧ pat.isPrefixOf (c :: rest) then
      rep ++ replaceAll pat rep (rest.drop (pat.length - 1))
    else
      c :: replaceAll pat rep rest
termination_by l => l.length
decreasing_by
  all_goals simp [List.length_drop]
  all_goals omega

/-- The ordered replacement table of `_simplify_phonetic`. -/
def replacements : List (List Char × List Char) :=
  [("ph".toList, "f".toList), ("ck".toList, "k".toList), ("gh".toList, "g".toList),
   ("kn".toList, "n".toList), ("wr".toList, "r".toList), ("wh".toList, "w".toList),
   ("ee".toList, "i".toList), ("ea".toList, "i".toList), ("oo".toList, "u".toList),
   ("ou".toList, "u".toList), ("ai".toList, "a".toList), ("ay".toList, "a".toList),
   ("ey".toList, "i".toList), ("ie".toList, "i".toList), ("y".toList, "i".toList)]

/-- `BrandEvaluator._simplify_phonetic`: lower-case, apply the ordered
replacements, then delete every vowel except the first character. -/
def simplify_phonetic (name : List Char) : List Char :=
  let n1 := lowerStr name
  let n2 := replacements.foldl (fun acc pr => replaceAll pr.1 pr.2 acc) n1
  match n2 with
  | [] => []
  | c :: rest =>
    c :: rest.filter (fun ch => decide (ch ∉ (['a', 'e', 'i', 'o', 'u'] : List Char)))

/-- The phonetic-similarity component computed inside
`BrandEvaluator._calculate_similarity` (lines 443-447 of
`brandval/evaluator.py`): first set to 1.0 or 0.0 by key equality, then
overwritten with 0.7 whenever one key starts with the other. -/
def phonetic_similarity_component (name1 name2 : List Char) : ℚ :=
  let phonetic1 := simplify_phonetic name1
  let phonetic2 := simplify_phonetic name2
  let ps : ℚ := if phonetic1 = phonetic2 then 1.0 else 0.0
  if phonetic1.isPrefixOf phonetic2 ∨ phonetic2.isPrefixOf phonetic1 then 0.7 else ps

/-- Shared-prefix loop of `_calculate_similarity`: count equal characters
from the start, stopping at the first mismatch. -/
def prefix_len : List Char → List Char → Nat
  | c1 :: t1, c2 :: t2 => if c1 = c2 then 1 + prefix_len t1 t2 else 0
  | _, _ => 0

/-- `BrandEvaluator._calculate_similarity`: weighted combination of edit
similarity, phonetic similarity and shared-prefix similarity. -/
def calculate_similarity (name1 name2 : List Char) : ℚ :=
  let edit_distance := levenshtein_distance name1 name2
  let max_len := max name1.length name2.length
  let edit_similarity : ℚ := if 0 < max_len then 1 - (edit_distance : ℚ) / (max_len : ℚ) else 1
  let phonetic_similarity := phonetic_similarity_component name1 name2
  let prefix_similarity : ℚ :=
    if 0 < max_len then (prefix_len name1 name2 : ℚ) / (max_len : ℚ) else 0
  edit_similarity * 0.4 + phonetic_similarity * 0.4 + prefix_similarity * 0.2

/-- `BrandEvaluator._get_similarity_reason`. -/
def similarity_reason (name1 name2 : List Char) : String :=
  if name1 = name2 then "identical"
  else if name1.isPrefixOf name2 ∨ name2.isPrefixOf name1 then "shares prefix"
  else if simplify_phonetic name1 = simplify_phonetic name2 then "sounds similar"
  else if levenshtein_distance name1 name2 ≤ 2 then "very close spelling"
  else if levenshtein_distance name1 name2 ≤ 4 then "similar spelling"
  else "partially similar"

/-- `SimilarCompany` dataclass. -/
structure SimilarCompany where
  name : List Char
  similarity_score : ℚ
  industry : String
  reason : String
deriving Repr, DecidableEq

/-- `SimilarCompaniesResult` dataclass. -/
structure SimilarCompaniesResult where
  «matches» : List SimilarCompany
  confusion_risk : String
deriving Repr, DecidableEq

/-- `TrademarkResult` dataclass (its `matches` payload is opaque here). -/
structure TrademarkResult where
  risk_level : String
  «matches» : List String
deriving Repr, DecidableEq

/-- `PronunciationResult` dataclass. -/
structure PronunciationResult where
  score : ℚ
  syllables : Nat
  spelling_difficulty : String
deriving Repr, DecidableEq

/-- `PerceptionResult` dataclass. -/
structure PerceptionResult where
  evokes : String
  industry_association : List String
  memorability : String
  mission_alignment : Option ℚ
deriving Repr, DecidableEq

/-- One entry of the `check_international` result map. -/
structure LangCheck where
  has_issue : Bool
  meaning : Option String
deriving Repr, DecidableEq

/-- `EvaluationResult` dataclass. -/
structure EvaluationResult where
  name : List Char
  overall_score : ℚ
  domain_score : ℚ
  social_score : ℚ
  trademark_score : ℚ
  pronunciation_score : ℚ
  international_score : ℚ
  similar_companies_score : ℚ
  domains : List (String × Bool)
  social : List (String × Bool)
  trademark : TrademarkResult
  pronunciation : PronunciationResult
  international : List (String × LangCheck)
  perception : PerceptionResult
  similar_companies : SimilarCompaniesResult

/-- `BrandEvaluator.DEFAULT_TLDS`. -/
def DEFAULT_TLDS : List String := [".com", ".io", ".co", ".ai", ".app"]

/-- `BrandEvaluator.DEFAULT_PLATFORMS`. -/
def DEFAULT_PLATFORMS : List String := ["twitter", "instagram", "linkedin", "tiktok", "github"]

/-- The `known_companies` dict of `_find_similar_static`, after Python dict
literal semantics (duplicate keys `notion` and `airtable` keep their first
insertion position and their last value, so `airtable` maps to
`productivity`). -/
def known_companies : List (List Char × String) :=
  [("stripe".toList, "payments"), ("shopify".toList, "e-commerce"),
   ("slack".toList, "communication"), ("zoom".toList, "video conferencing"),
   ("notion".toList, "productivity"), ("figma".toList, "design"),
   ("canva".toList, "design"), ("asana".toList, "project management"),
   ("trello".toList, "project management"), ("airtable".toList, "productivity"),
   ("hubspot".toList, "marketing"), ("mailchimp".toList, "email marketing"),
   ("twilio".toList, "communication APIs"), ("plaid".toList, "fintech"),
   ("brex".toList, "fintech"), ("ramp".toList, "fintech"),
   ("gusto".toList, "HR/payroll"), ("rippling".toList, "HR"),
   ("deel".toList, "HR"), ("lattice".toList, "HR"),
   ("lever".toList, "recruiting"), ("greenhouse".toList, "recruiting"),
   ("datadog".toList, "monitoring"), ("snowflake".toList, "data"),
   ("databricks".toList, "data"), ("confluent".toList, "data streaming"),
   ("vercel".toList, "hosting"), ("netlify".toList, "hosting"),
   ("supabase".toList, "database"), ("firebase".toList, "backend"),
   ("mongodb".toList, "database"), ("elastic".toList, "search"),
   ("algolia".toList, "search"), ("auth0".toList, "authentication"),
   ("okta".toList, "identity"), ("cloudflare".toList, "infrastructure"),
   ("fastly".toList, "CDN"), ("segment".toList, "analytics"),
   ("amplitude".toList, "analytics"), ("mixpanel".toList, "analytics"),
   ("intercom".toList, "customer support"), ("zendesk".toList, "customer support"),
   ("freshworks".toList, "customer support"), ("calendly".toList, "scheduling"),
   ("loom".toList, "video"), ("miro".toList, "collaboration"),
   ("linear".toList, "project management"), ("monday".toList, "project management"),
   ("clickup".toList, "project management"), ("anthropic".toList, "AI"),
   ("openai".toList, "AI"), ("cohere".toList, "AI"),
   ("stability".toList, "AI"), ("midjourney".toList, "AI"),
   ("jasper".toList, "AI"), ("copy.ai".toList, "AI"),
   ("grammarly".toList, "writing"), ("coda".toList, "productivity")]

/-- Recursive worker for `titleCase`. -/
def titleGo : Bool → List Char → List Char
  | _, [] => []
  | start, c :: rest =>
    if c.isAlpha then (if start then c.toUpper else c.toLower) :: titleGo false rest
    else c :: titleGo true rest

/-- Python `str.title()` for the ASCII names of the static catalog. -/
def titleCase (s : List Char) : List Char := titleGo true s

/-- Risk derivation at the end of `_find_similar_static` (its four-branch
`if`/`elif` chain over the kept matches). -/
def risk_of (ms : List SimilarCompany) : String :=
  if ms.isEmpty then "low"
  else if ms.any (fun m => decide (m.similarity_score > 0.8)) then "high"
  else if ms.any (fun m => decide (m.similarity_score > 0.6)) then "medium"
  else "low"

/-- Comparator modelling `sort(key=lambda x: x.similarity_score, reverse=True)`
(a stable descending sort by score). -/
def byScoreDesc (a b : SimilarCompany) : Bool := decide (b.similarity_score ≤ a.similarity_score)

/-- `BrandEvaluator._find_similar_static`: score the name against the static
catalog, keep similarities above 0.5, sort descending, truncate to five and
derive the confusion risk. -/
def find_similar_static (name : List Char) : SimilarCompaniesResult :=
  let name_lower := lowerStr name
  let found := known_companies.foldl
    (fun acc pr =>
      if calculate_similarity name_lower pr.1 > 0.5 then
        acc ++ [{ name := titleCase pr.1, similarity_score := calculate_similarity name_lower pr.1,
                  industry := pr.2, reason := similarity_reason name_lower pr.1 }]
      else acc) []
  let top := (found.mergeSort byScoreDesc).take 5
  { «matches» := top, confusion_risk := risk_of top }

/-- The duplicate-avoiding accumulation loops of `_merge_similar_results`:
`seen_names` is the set of lower-cased names already taken (modelled as a
list consulted only through membership), `out` the accumulated matches. -/
def mergeLoop : List SimilarCompany → List (List Char) × List SimilarCompany →
    List (List Char) × List SimilarCompany
  | [], acc => acc
  | m :: rest, (seen, out) =>
    let nl := lowerStr m.name
    if nl ∈ seen then mergeLoop rest (seen, out)
    else mergeLoop rest (nl :: seen, out ++ [m])

/-- `BrandEvaluator._merge_similar_results`: LLM matches first, then static
matches not already seen, sorted by score descending, truncated to five;
the risk label of higher `risk_order` rank wins, the static one on ties. -/
def merge_similar_results (staticR llm : SimilarCompaniesResult) : SimilarCompaniesResult :=
  let pass1 := mergeLoop llm.matches ([], [])
  let pass2 := mergeLoop staticR.matches pass1
  let merged := (pass2.2.mergeSort byScoreDesc).take 5
  let risk_order : String → Nat := fun r =>
    if r = "low" then 0 else if r = "medium" then 1 else if r = "high" then 2 else 0
  let confusion_risk :=
    if risk_order llm.confusion_risk > risk_order staticR.confusion_risk then llm.confusion_risk
    else staticR.confusion_risk
  { «matches» := merged, confusion_risk := confusion_risk }

/-- `BrandEvaluator.find_similar_companies`, with the presence of the API key
and the outcome of the LLM call (`_find_similar_with_llm`) passed as
parameters; a raised exception is the `Except.error` case, which the source
catches, logs and swallows.  Totality of this function models that no
exception propagates to the caller. -/
def find_similar_companies (hasApiKey : Bool) (llm : Except Unit SimilarCompaniesResult)
    (name : List Char) : SimilarCompaniesResult :=
  let static_result := find_similar_static name
  if hasApiKey then
    match llm with
    | Except.ok r => merge_similar_results static_result r
    | Except.error _ => static_result
  else static_result

/-- The vowel set of `_count_syllables` (`y` included). -/
def vowels : List Char := ['a', 'e', 'i', 'o', 'u', 'y']

/-- `BrandEvaluator._count_syllables`: count maximal vowel groups, drop one
for a trailing silent `e` when the count exceeds one, floor at one. -/
def count_syllables (word : List Char) : Nat :=
  let w := lowerStr word
  let cnt := (w.foldl
    (fun (acc : Nat × Bool) ch =>
      let is_vowel := decide (ch ∈ vowels)
      (if is_vowel && !acc.2 then acc.1 + 1 else acc.1, is_vowel))
    (0, false)).1
  let cnt2 := if w.getLastD ' ' = 'e' ∧ cnt > 1 then cnt - 1 else cnt
  max 1 cnt2

/-- Base pronunciation score by syllable count. -/
def base_from_syllables (syllables : Nat) : ℚ :=
  if syllables ≤ 2 then 9.0 else if syllables ≤ 3 then 7.0
  else if syllables ≤ 4 then 5.0 else 3.0

/-- The `difficult_patterns` list of `analyze_pronunciation`. -/
def difficult_patterns : List (List Char) :=
  ["xw".toList, "zx".toList, "ptl".toList, "tch".toList, "sch".toList]

/-- The `unusual` combinations of `_is_phonetic`. -/
def unusual_combos : List (List Char) :=
  ["ph".toList, "gh".toList, "ough".toList, "tion".toList, "sion".toList,
   "xc".toList, "cq".toList]

/-- `BrandEvaluator._is_phonetic`. -/
def is_phonetic (name : List Char) : Bool :=
  !(unusual_combos.any (fun u => containsSub u (lowerStr name)))

/-- `BrandEvaluator.analyze_pronunciation`: base score from the syllable
count, minus 1.5 per difficult pattern contained in the lower-cased name,
clamped to `[0, 10]`, together with the spelling-difficulty label. -/
def analyze_pronunciation (name : List Char) : PronunciationResult :=
  let syllables := count_syllables name
  let base := difficult_patterns.foldl
    (fun b pat => if containsSub pat (lowerStr name) then b - 1.5 else b)
    (base_from_syllables syllables)
  let spelling :=
    if is_phonetic name then "easy"
    else if ["ph".toList, "gh".toList, "ough".toList].any
        (fun c => containsSub c (lowerStr name)) then "hard"
    else "medium"
  { score := max 0 (min 10 base), syllables := syllables, spelling_difficulty := spelling }

/-- `BrandEvaluator.score_pronunciation`. -/
def score_pronunciation (name : List Char) : ℚ := (analyze_pronunciation name).score

/-- The `languages` list of `check_international`. -/
def languages : List String :=
  ["spanish", "french", "german", "mandarin", "japanese", "portuguese", "arabic"]

/-- The `problematic` table of `check_international`. -/
def problematic : List (List Char × List (String × String)) :=
  [("mist".toList, [("german", "manure/dung")]),
   ("fart".toList, [("scandinavian", "speed")]),
   ("nova".toList, [("spanish", "doesn\x27t go (no va)")])]

/-- `BrandEvaluator.check_international`: for each checked language, flag an
issue exactly when the lower-cased name is a `problematic` key whose inner
table contains that language. -/
def check_international (name : List Char) : List (String × LangCheck) :=
  let name_lower := lowerStr name
  languages.map (fun lang =>
    let issue : Option String :=
      match List.lookup name_lower problematic with
      | some inner => List.lookup lang inner
      | none => none
    (lang, { has_issue := issue.isSome, meaning := issue }))

/-- `BrandEvaluator._calc_domain_score`: 50 points for `.com`, the other
TLDs sharing the remaining 50 proportionally; 0 for an empty map. -/
def calc_domain_score (domains : List (String × Bool)) : ℚ :=
  if domains.isEmpty then 0
  else
    let com : ℚ := if (List.lookup (".com") domains).getD false then 50 else 0
    let other_tlds := (domains.map Prod.fst).filter (fun t => decide (t ≠ ".com"))
    let available_others :=
      (other_tlds.filter (fun t => (List.lookup t domains).getD false)).length
    com + (if ¬other_tlds.isEmpty then
      ((available_others : ℚ) / (other_tlds.length : ℚ)) * 50 else 0)

/-- `BrandEvaluator._calc_social_score`. -/
def calc_social_score (social : List (String × Bool)) : ℚ :=
  if social.isEmpty then 0
  else (((social.filter (fun p => p.2)).length : ℚ) / (social.length : ℚ)) * 100

/-- `BrandEvaluator._calc_trademark_score`. -/
def calc_trademark_score (trademark : TrademarkResult) : ℚ :=
  if trademark.risk_level = "low" then 100
  else if trademark.risk_level = "medium" then 50
  else 10

/-- `BrandEvaluator._calc_international_score`. -/
def calc_international_score (international : List (String × LangCheck)) : ℚ :=
  if international.isEmpty then 100
  else max 0 (100 - ((international.filter (fun p => p.2.has_issue)).length : ℚ) * 20)

/-- `BrandEvaluator._calc_similar_companies_score`. -/
def calc_similar_companies_score (similar : SimilarCompaniesResult) : ℚ :=
  if similar.matches.isEmpty then 100
  else if similar.confusion_risk = "high" then 20
  else if similar.confusion_risk = "medium" then 60
  else 85

/-- `BrandEvaluator.check_domains`, with the WHOIS collaborator passed as a
predicate `whoisFound` (true when `whois_lookup` returns a record, i.e. the
domain is registered; a TLD is available when no record is found). -/
def check_domains (whoisFound : List Char → Bool) (name : List Char) : List (String × Bool) :=
  DEFAULT_TLDS.map (fun tld => (tld, !whoisFound (lowerStr name ++ tld.toList)))

/-- `BrandEvaluator.check_social` (placeholder in the source: every platform
reported available). -/
def check_social (name : List Char) : List (String × Bool) :=
  DEFAULT_PLATFORMS.map (fun platform => (platform, true))

/-- `BrandEvaluator.check_trademark` (stub in the source). -/
def check_trademark (name : List Char) : TrademarkResult :=
  { risk_level := "low", «matches» := [] }

/-- `BrandEvaluator.analyze_perception`, with the API-key presence and the
persona-analysis outcome passed as parameters; a failure falls back to the
placeholder result. -/
def analyze_perception (hasApiKey : Bool) (oracle : Except Unit PerceptionResult)
    (name : List Char) (mission : Option (List Char)) : PerceptionResult :=
  match hasApiKey, oracle with
  | true, Except.ok r => r
  | _, _ =>
    { evokes := "professional, modern", industry_association := ["technology", "business"],
      memorability := "high",
      mission_alignment := if mission.isSome then some 7.0 else none }

/-- `BrandEvaluator.evaluate`: runs every sub-evaluation, computes the six
sub-scores and the fixed-weight overall score, and assembles the result
record.  External collaborators (WHOIS, the two LLM oracles) are explicit
parameters. -/
def evaluate (whoisFound : List Char → Bool) (hasApiKey : Bool)
    (llmSimilar : Except Unit SimilarCompaniesResult)
    (llmPerception : Except Unit PerceptionResult)
    (name : List Char) (mission : Option (List Char)) : EvaluationResult :=
  let domains := check_domains whoisFound name
  let social := check_social name
  let trademark := check_trademark name
  let pronunciation := analyze_pronunciation name
  let international := check_international name
  let perception := analyze_perception hasApiKey llmPerception name mission
  let similar_companies := find_similar_companies hasApiKey llmSimilar name
  let domain_score := calc_domain_score domains
  let social_score := calc_social_score social
  let trademark_score := calc_trademark_score trademark
  let pronunciation_score := pronunciation.score * 10
  let international_score := calc_international_score international
  let similar_companies_score := calc_similar_companies_score similar_companies
  let overall_score :=
    domain_score * 0.20 + social_score * 0.10 + trademark_score * 0.20 +
    pronunciation_score * 0.15 + international_score * 0.15 + similar_companies_score * 0.20
  { name := name, overall_score := overall_score, domain_score := domain_score,
    social_score := social_score, trademark_score := trademark_score,
    pronunciation_score := pronunciation_score, international_score := international_score,
    similar_companies_score := similar_companies_score, domains := domains, social := social,
    trademark := trademark, pronunciation := pronunciation, international := international,
    perception := perception, similar_companies := similar_companies }

/-- Deduplicate a match list by lower-cased matched name, first occurrence
wins.  This is the spec-side wording of the reconcile step, written for the
refinement comparison against `merge_similar_results`. -/
def dedupByLowerName : List SimilarCompany → List SimilarCompany
  | [] => []
  | m :: rest =>
    m :: dedupByLowerName (rest.filter (fun x => decide (lowerStr x.name ≠ lowerStr m.name)))
termination_by l => l.length
decreasing_by
  simp only [List.length_cons]
  exact Nat.lt_succ_of_le (List.length_filter_le _ _)

/-- Severity rank of a confusion-risk label under the spec ordering
`low < medium < high`. -/
def riskSeverity : String → Nat
  | r => if r = "high" then 2 else if r = "medium" then 1 else 0

/-- Spec-side reconciliation (spec §4.4 `reconcile`): oracle matches first,
then static matches, deduplicated by lower-cased name (first wins), sorted
descending by score, truncated to five, with the higher-severity risk. -/
def reconcile_spec (staticR oracle : SimilarCompaniesResult) : SimilarCompaniesResult :=
  let merged :=
    ((dedupByLowerName (oracle.matches ++ staticR.matches)).mergeSort byScoreDesc).take 5
  let risk := if riskSeverity staticR.confusion_risk ≥ riskSeverity oracle.confusion_risk
    then staticR.confusion_risk else oracle.confusion_risk
  { «matches» := merged, confusion_risk := risk }

/-- Number of occurrences (starting positions) of `pat` in `s`; formalizes
the claim wording "each occurrence, counting repeated occurrences of the
same cluster". -/
def occurrence_count (pat s : List Char) : Nat :=
  ((List.range (s.length + 1)).filter (fun i => pat.isPrefixOf (s.drop i))).length

/-- The row of pairwise `Nat.dist` values `[dist i j, dist i (j+1), ...]`
with one entry per position of `t` plus one; this is the shape the DP rows
take when both strings are equal. -/
def distRow (i j : Nat) : List Char → List Nat
  | [] => [Nat.dist i j]
  | _ :: t => Nat.dist i j :: distRow i (j + 1) t

lemma distRow_ne_nil (i j : Nat) (t : List Char) : distRow i j t ≠ [] := by
  cases t <;> simp [distRow]

lemma distRow_head_tail (i j : Nat) (t : List Char) :
    distRow i j t = Nat.dist i j :: (distRow i j t).tail := by
  cases t <;> simp [distRow]

lemma distRow_getLastD (i : Nat) (t : List Char) :
    ∀ (j : Nat) (d : Nat), (distRow i j t).getLastD d = Nat.dist i (j + t.length) := by
  induction t with
  | nil => intro j d; simp [distRow]
  | cons c t ih =>
    intro j d
    rw [distRow, List.getLastD_cons, ih (j + 1) (Nat.dist i j)]
    congr 1
    simp
    omega

/-- The single-cell DP step is correct on the diagonal-respecting rows: when
the compared characters agree on the diagonal, the minimum of the three
candidates is `Nat.dist (i+1) (j+1)`. -/
lemma lev_cell (i j : Nat) (c1 c2 : Char) (hc : i = j → c2 = c1) :
    min (Nat.dist i (j + 1) + 1)
      (min (Nat.dist (i + 1) j + 1) (Nat.dist i j + (if c1 ≠ c2 then 1 else 0))) =
    Nat.dist (i + 1) (j + 1) := by
  by_cases hij : i = j
  · have h := hc hij
    subst h
    subst hij
    simp [Nat.dist]
  · by_cases hc2 : c1 = c2 <;> simp [hc2, Nat.dist] <;> omega

lemma levInner_self (c1 : Char) :
    ∀ (t : List Char) (i j : Nat),
      (∀ k, i = j + k → t.getD k c1 = c1) →
      levInner c1 t (distRow i j t) (Nat.dist (i + 1) j) = (distRow (i + 1) j t).tail := by
  intro t
  induction t with
  | nil => intro i j _; simp [distRow, levInner]
  | cons c2 t ih =>
    intro i j hchar
    have hcell : min (Nat.dist i (j + 1) + 1)
        (min (Nat.dist (i + 1) j + 1) (Nat.dist i j + (if c1 ≠ c2 then 1 else 0))) =
        Nat.dist (i + 1) (j + 1) := by
      refine lev_cell i j c1 c2 (fun hij => ?_)
      have h0 := hchar 0 (by omega)
      simpa using h0
    have hrec : levInner c1 t (distRow i (j + 1) t) (Nat.dist (i + 1) (j + 1)) =
        (distRow (i + 1) (j + 1) t).tail := by
      refine ih i (j + 1) (fun k hk => ?_)
      have h1 := hchar (k + 1) (by omega)
      simpa using h1
    cases t with
    | nil =>
      simp only [distRow, levInner, hcell, List.tail_cons]
    | cons c3 t2 =>
      simp only [distRow] at hrec ⊢
      simp only [levInner, hcell, List.tail_cons] at hrec ⊢
      exact congrArg _ hrec

lemma levLoop_self (s : List Char) :
    ∀ (rest : List Char) (i : Nat), rest = s.drop i →
      levLoop s rest i (distRow i 0 s) = distRow (i + rest.length) 0 s := by
  intro rest
  induction rest with
  | nil => intro i _; simp [levLoop]
  | cons c1 rest ih =>
    intro i hdrop
    have hget : ∀ k, i = 0 + k → s.getD k c1 = c1 := by
      intro k hk
      have hk' : k = i := by omega
      subst hk'
      have h0 : (s.drop k)[0]? = some c1 := by rw [← hdrop]; simp
      rw [List.getElem?_drop] at h0
      simp only [Nat.add_zero] at h0
      simp [List.getD_eq_getElem?_getD, h0]
    have hcur : Nat.dist (i + 1) 0 = i + 1 := by simp [Nat.dist]
    have hinner := levInner_self c1 s i 0 hget
    rw [hcur] at hinner
    have hrow : (i + 1) :: levInner c1 s (distRow i 0 s) (i + 1) = distRow (i + 1) 0 s := by
      rw [hinner, distRow_head_tail (i + 1) 0 s, hcur]
      simp
    have hdrop' : rest = s.drop (i + 1) := by
      have : List.drop (i + 1) s = List.drop 1 (List.drop i s) := List.drop_add i 1 s
      rw [this, ← hdrop]
      rfl
    calc levLoop s (c1 :: rest) i (distRow i 0 s)
        = levLoop s rest (i + 1) ((i + 1) :: levInner c1 s (distRow i 0 s) (i + 1)) := rfl
      _ = levLoop s rest (i + 1) (distRow (i + 1) 0 s) := by rw [hrow]
      _ = distRow (i + 1 + rest.length) 0 s := ih (i + 1) hdrop'
      _ = distRow (i + (c1 :: rest).length) 0 s := by
            congr 1
            simp
            omega

lemma distRow_zero_zero (s : List Char) : distRow 0 0 s = List.range (s.length + 1) := by
  suffices h : ∀ (t : List Char) (j : Nat),
      distRow 0 j t = (List.range (t.length + 1)).map (fun k => j + k) by
    have h0 := h s 0
    simpa using h0
  intro t
  induction t with
  | nil =>
    intro j
    have h1 : List.range 1 = [0] := rfl
    simp [distRow, Nat.dist, h1]
  | cons c t ih =>
    intro j
    rw [distRow, ih (j + 1)]
    have h2 : (List.range ((c :: t).length + 1)).map (fun k => j + k) =
        (j + 0) :: (List.range (t.length + 1)).map (fun k => j + (k + 1)) := by
      rw [List.length_cons, List.range_succ_eq_map]
      simp only [List.map_cons, List.map_map]
      rfl
    rw [h2]
    congr 1
    · simp [Nat.dist]
    · exact List.map_congr_left (fun a _ => by omega)

lemma levCore_self (s : List Char) : levCore s s = 0 := by
  by_cases hs : s.length = 0
  · simp [levCore, hs]
  · rw [levCore, if_neg hs, ← distRow_zero_zero,
      levLoop_self s s 0 (List.drop_zero s).symm, distRow_getLastD]
    simp [Nat.dist]

/-- `_levenshtein_distance(a, a) = 0` for every string `a`. -/
lemma levenshtein_self (s : List Char) : levenshtein_distance s s = 0 := by
  rw [levenshtein_distance, if_neg (lt_irrefl _), levCore_self]

lemma isPrefixOf_self (l : List Char) : l.isPrefixOf l = true :=
  ( List.isPrefixOf_iff_prefix).mpr (List.prefix_refl l)

lemma prefix_len_self (l : List Char) : prefix_len l l = l.length := by
  induction l with
  | nil => rfl
  | cons c t ih => simp [prefix_len, ih, Nat.add_comm]

/-- The phonetic component at equal inputs: the overwrite branch fires, since
a key is a prefix of itself, so the value is 0.7 rather than 1.0. -/
lemma phonetic_component_self (a : List Char) : phonetic_similarity_component a a = 0.7 := by
  simp [phonetic_similarity_component, isPrefixOf_self]

/-- Self-similarity of `_calculate_similarity`: the edit and prefix parts
contribute their full weights but the phonetic part contributes `0.7 * 0.4`,
so the total is 0.88. -/
lemma similarity_self (a : List Char) (h : a ≠ []) : calculate_similarity a a = 0.88 := by
  have hlen : 0 < a.length := List.length_pos.mpr h
  have hcast : ((a.length : ℚ)) ≠ 0 := Nat.cast_ne_zero.mpr (Nat.pos_iff_ne_zero.mp hlen)
  simp only [calculate_similarity, levenshtein_self, phonetic_component_self, prefix_len_self,
    max_self, if_pos hlen, Nat.cast_zero, zero_div, sub_zero]
  rw [div_self hcast]
  norm_num

/-- C2 (corrected).  The phonetic-similarity component used inside
`similarity(a, b)` equals 0.7 whenever one phonetic key is a literal prefix
of the other — including the case of equal keys, because the overwrite on
line 446-447 also fires then — and equals 0.0 otherwise.  The claimed value
1.0 for equal keys is never produced. -/
theorem claim_C2 (a b : List Char) :
    (simplify_phonetic a = simplify_phonetic b → phonetic_similarity_component a b = 0.7) ∧
    (simplify_phonetic a ≠ simplify_phonetic b ∧
        ((simplify_phonetic a).isPrefixOf (simplify_phonetic b) ∨
          (simplify_phonetic b).isPrefixOf (simplify_phonetic a)) →
      phonetic_similarity_component a b = 0.7) ∧
    (¬((simplify_phonetic a).isPrefixOf (simplify_phonetic b) ∨
        (simplify_phonetic b).isPrefixOf (simplify_phonetic a)) →
      phonetic_similarity_component a b = 0) := by
  refine ⟨?_, ?_, ?_⟩
  · intro h
    have hp : (simplify_phonetic a).isPrefixOf (simplify_phonetic b) = true := by
      rw [h]; exact isPrefixOf_self _
    show (if (simplify_phonetic a).isPrefixOf (simplify_phonetic b) ∨
        (simplify_phonetic b).isPrefixOf (simplify_phonetic a) then (0.7 : ℚ) else
        (if simplify_phonetic a = simplify_phonetic b then 1.0 else 0.0)) = 0.7
    rw [if_pos (Or.inl hp)]
  · intro h
    show (if (simplify_phonetic a).isPrefixOf (simplify_phonetic b) ∨
        (simplify_phonetic b).isPrefixOf (simplify_phonetic a) then (0.7 : ℚ) else
        (if simplify_phonetic a = simplify_phonetic b then 1.0 else 0.0)) = 0.7
    rw [if_pos h.2]
  · intro h
    have hne : simplify_phonetic a ≠ simplify_phonetic b := by
      intro he
      exact h (Or.inl (by rw [he]; exact isPrefixOf_self _))
    show (if (simplify_phonetic a).isPrefixOf (simplify_phonetic b) ∨
        (simplify_phonetic b).isPrefixOf (simplify_phonetic a) then (0.7 : ℚ) else
        (if simplify_phonetic a = simplify_phonetic b then 1.0 else 0.0)) = 0
    rw [if_neg h, if_neg hne]
    norm_num

/-- C2 witness: at `a = b = "a"` the phonetic keys are equal and the
component evaluates to 0.7 through the first branch of `claim_C2`. -/
theorem claim_C2_witness :
    simplify_phonetic ['a'] = simplify_phonetic ['a'] ∧
    phonetic_similarity_component ['a'] ['a'] = 0.7 :=
  ⟨rfl, (claim_C2 ['a'] ['a']).1 rfl⟩

/-- C2 counterexample: for `a = b = "a"` the phonetic keys coincide, yet the
component is not the claimed 1.0. -/
theorem claim_C2_counterexample :
    simplify_phonetic ['a'] = simplify_phonetic ['a'] ∧
    phonetic_similarity_component ['a'] ['a'] ≠ 1.0 := by
  refine ⟨rfl, ?_⟩
  rw [phonetic_component_self]
  norm_num

/-- C3 (corrected).  For every non-empty string `a`,
`similarity(a, a) = 0.88`, not the claimed 1.0: the phonetic component at
equal inputs is 0.7 (see C2), so the weighted sum is
`1*0.4 + 0.7*0.4 + 1*0.2 = 0.88`. -/
theorem claim_C3 (a : List Char) (h : a ≠ []) : calculate_similarity a a = 0.88 :=
  similarity_self a h

/-- C3 witness: the amended value at the concrete input `"a"`. -/
theorem claim_C3_witness :
    (['a'] : List Char) ≠ [] ∧ calculate_similarity ['a'] ['a'] = 0.88 :=
  ⟨by decide, claim_C3 ['a'] (by decide)⟩

/-- C3 counterexample: `similarity("a", "a")` is not 1.0. -/
theorem claim_C3_counterexample : calculate_similarity ['a'] ['a'] ≠ 1.0 := by
  rw [similarity_self ['a'] (by decide)]
  norm_num

/-- C9 (confirmed).  When the LLM oracle call fails (the `Except.error`
outcome of `_find_similar_with_llm`), `find_similar_companies` returns
exactly the static-only result, for any API-key configuration; the function
is total, so no exception propagates. -/
theorem claim_C9 (hasApiKey : Bool) (name : List Char) (e : Unit) :
    find_similar_companies hasApiKey (Except.error e) name = find_similar_static name := by
  cases hasApiKey <;> rfl

lemma risk_of_high_iff (ms : List SimilarCompany) :
    risk_of ms = "high" ↔ ∃ m ∈ ms, m.similarity_score > 0.8 := by
  have hany8 : (ms.any (fun m => decide (m.similarity_score > 0.8)) = true) ↔
      ∃ m ∈ ms, m.similarity_score > 0.8 := by simp [List.any_eq_true]
  rw [risk_of]
  split_ifs with he h8 h6
  · refine iff_of_false (by decide) ?_
    rw [List.isEmpty_iff.mp he]
    simp
  · exact iff_of_true rfl (hany8.mp h8)
  · exact iff_of_false (by decide) (fun hx => h8 (hany8.mpr hx))
  · exact iff_of_false (by decide) (fun hx => h8 (hany8.mpr hx))

lemma risk_of_medium_iff (ms : List SimilarCompany) :
    risk_of ms = "medium" ↔
      ((¬∃ m ∈ ms, m.similarity_score > 0.8) ∧ ∃ m ∈ ms, m.similarity_score > 0.6) := by
  have hany8 : (ms.any (fun m => decide (m.similarity_score > 0.8)) = true) ↔
      ∃ m ∈ ms, m.similarity_score > 0.8 := by simp [List.any_eq_true]
  have hany6 : (ms.any (fun m => decide (m.similarity_score > 0.6)) = true) ↔
      ∃ m ∈ ms, m.similarity_score > 0.6 := by simp [List.any_eq_true]
  rw [risk_of]
  split_ifs with he h8 h6
  · refine iff_of_false (by decide) ?_
    rintro ⟨-, hx⟩
    rw [List.isEmpty_iff.mp he] at hx
    simp at hx
  · exact iff_of_false (by decide) (fun hx => hx.1 (hany8.mp h8))
  · exact iff_of_true rfl ⟨fun hx => h8 (hany8.mpr hx), hany6.mp h6⟩
  · exact iff_of_false (by decide) (fun hx => h6 (hany6.mpr hx.2))

lemma risk_of_low_iff (ms : List SimilarCompany) :
    risk_of ms = "low" ↔ ¬∃ m ∈ ms, m.similarity_score > 0.6 := by
  have hany8 : (ms.any (fun m => decide (m.similarity_score > 0.8)) = true) ↔
      ∃ m ∈ ms, m.similarity_score > 0.8 := by simp [List.any_eq_true]
  have hany6 : (ms.any (fun m => decide (m.similarity_score > 0.6)) = true) ↔
      ∃ m ∈ ms, m.similarity_score > 0.6 := by simp [List.any_eq_true]
  rw [risk_of]
  split_ifs with he h8 h6
  · refine iff_of_true rfl ?_
    rintro ⟨m, hm, -⟩
    rw [List.isEmpty_iff.mp he] at hm
    simp at hm
  · refine iff_of_false (by decide) ?_
    obtain ⟨m, hm, hgt⟩ := hany8.mp h8
    intro hn
    exact hn ⟨m, hm, by nlinarith⟩
  · exact iff_of_false (by decide) (fun hn => hn (hany6.mp h6))
  · exact iff_of_true rfl (fun hx => h6 (hany6.mpr hx))

/-- C5 (confirmed).  For every input name, the static-only similarity result
has `confusion_risk = "high"` iff some returned match scores above 0.8,
`"medium"` iff none does but some scores above 0.6, and `"low"` iff no
returned match scores above 0.6 (in particular when there are no matches). -/
theorem claim_C5 (name : List Char) :
    ((find_similar_static name).confusion_risk = "high" ↔
      ∃ m ∈ (find_similar_static name).matches, m.similarity_score > 0.8) ∧
    ((find_similar_static name).confusion_risk = "medium" ↔
      ((¬∃ m ∈ (find_similar_static name).matches, m.similarity_score > 0.8) ∧
        ∃ m ∈ (find_similar_static name).matches, m.similarity_score > 0.6)) ∧
    ((find_similar_static name).confusion_risk = "low" ↔
      ¬∃ m ∈ (find_similar_static name).matches, m.similarity_score > 0.6) :=
  ⟨risk_of_high_iff _, risk_of_medium_iff _, risk_of_low_iff _⟩

lemma byScoreDesc_trans : ∀ a b c : SimilarCompany,
    byScoreDesc a b = true → byScoreDesc b c = true → byScoreDesc a c = true := by
  intro a b c h1 h2
  simp only [byScoreDesc, decide_eq_true_eq] at h1 h2 ⊢
  exact le_trans h2 h1

lemma byScoreDesc_total : ∀ a b : SimilarCompany,
    (byScoreDesc a b || byScoreDesc b a) = true := by
  intro a b
  simp only [byScoreDesc, Bool.or_eq_true, decide_eq_true_eq]
  exact le_total _ _

lemma sortTake_sorted (ms : List SimilarCompany) :
    ((ms.mergeSort byScoreDesc).take 5).Sorted
      (fun a b => a.similarity_score ≥ b.similarity_score) := by
  have h := List.sorted_mergeSort byScoreDesc_trans byScoreDesc_total ms
  have h2 : (ms.mergeSort byScoreDesc).Sorted
      (fun a b => a.similarity_score ≥ b.similarity_score) := by
    refine h.imp ?_
    intro a b hab
    simpa [byScoreDesc, ge_iff_le] using hab
  exact List.Pairwise.sublist (List.take_sublist 5 _) h2

lemma sortTake_len (ms : List SimilarCompany) :
    ((ms.mergeSort byScoreDesc).take 5).length ≤ 5 := by
  simp [List.length_take]

/-- C8 (confirmed).  Every static-pass result and every merged
(static + oracle) result carries at most five matches, sorted in
non-increasing order of similarity score. -/
theorem claim_C8 :
    (∀ name : List Char,
      (find_similar_static name).matches.length ≤ 5 ∧
      (find_similar_static name).matches.Sorted
        (fun a b => a.similarity_score ≥ b.similarity_score)) ∧
    (∀ staticR llm : SimilarCompaniesResult,
      (merge_similar_results staticR llm).matches.length ≤ 5 ∧
      (merge_similar_results staticR llm).matches.Sorted
        (fun a b => a.similarity_score ≥ b.similarity_score)) :=
  ⟨fun _ => ⟨sortTake_len _, sortTake_sorted _⟩,
   fun _ _ => ⟨sortTake_len _, sortTake_sorted _⟩⟩

lemma mergeLoop_append (xs ys : List SimilarCompany) :
    ∀ p, mergeLoop (xs ++ ys) p = mergeLoop ys (mergeLoop xs p) := by
  induction xs with
  | nil => intro p; rfl
  | cons m rest ih =>
    intro p
    obtain ⟨seen, out⟩ := p
    by_cases h : lowerStr m.name ∈ seen
    · simp only [List.cons_append, mergeLoop, if_pos h]
      exact ih _
    · simp only [List.cons_append, mergeLoop, if_neg h]
      exact ih _

/-- The seen-set loop of `_merge_similar_results` computes exactly
first-occurrence deduplication by lower-cased name of the part of its input
not already blocked by `seen`. -/
lemma mergeLoop_out (ms : List SimilarCompany) :
    ∀ (seen : List (List Char)) (out : List SimilarCompany),
      (mergeLoop ms (seen, out)).2 =
        out ++ dedupByLowerName (ms.filter (fun x => decide (lowerStr x.name ∉ seen))) := by
  induction ms with
  | nil => intro seen out; simp [mergeLoop, dedupByLowerName]
  | cons m rest ih =>
    intro seen out
    by_cases h : lowerStr m.name ∈ seen
    · have hstep : mergeLoop (m :: rest) (seen, out) = mergeLoop rest (seen, out) := by
        simp [mergeLoop, h]
      rw [hstep, ih seen out, List.filter_cons]
      simp [h]
    · have hstep : mergeLoop (m :: rest) (seen, out) =
          mergeLoop rest (lowerStr m.name :: seen, out ++ [m]) := by
        simp [mergeLoop, h]
      have hfilters : (rest.filter (fun x => decide (lowerStr x.name ∉ seen))).filter
            (fun x => decide (lowerStr x.name ≠ lowerStr m.name)) =
          rest.filter (fun x => decide (lowerStr x.name ∉ lowerStr m.name :: seen)) := by
        rw [List.filter_filter]
        refine List.filter_congr ?_
        intro x _
        rw [← Bool.decide_and]
        refine decide_eq_decide.mpr ?_
        simp [List.mem_cons, not_or]
      have hfc : (m :: rest).filter (fun x => decide (lowerStr x.name ∉ seen)) =
          m :: rest.filter (fun x => decide (lowerStr x.name ∉ seen)) := by
        simp [List.filter_cons, h]
      have hded : dedupByLowerName (m :: rest.filter (fun x => decide (lowerStr x.name ∉ seen))) =
          m :: dedupByLowerName ((rest.filter (fun x => decide (lowerStr x.name ∉ seen))).filter
            (fun x => decide (lowerStr x.name ≠ lowerStr m.name))) := by
        simp only [dedupByLowerName]
      rw [hstep, ih (lowerStr m.name :: seen) (out ++ [m]), hfc, hded, hfilters]
      simp

/-- C4 (confirmed).  For risk labels drawn from {low, medium, high},
`_merge_similar_results` coincides with the spec's reconcile: oracle matches
first, deduplicated by lower-cased name with first occurrence winning, static
matches appended, sorted descending by score, top five kept, and the
higher-severity risk label returned. -/
theorem claim_C4 (staticR llm : SimilarCompaniesResult)
    (hs : staticR.confusion_risk ∈ (["low", "medium", "high"] : List String))
    (hl : llm.confusion_risk ∈ (["low", "medium", "high"] : List String)) :
    merge_similar_results staticR llm = reconcile_spec staticR llm := by
  have hmatches : (mergeLoop staticR.matches (mergeLoop llm.matches ([], []))).2 =
      dedupByLowerName (llm.matches ++ staticR.matches) := by
    rw [← mergeLoop_append, mergeLoop_out]
    simp
  simp only [merge_similar_results, reconcile_spec]
  rw [hmatches]
  congr 1
  simp only [List.mem_cons, List.not_mem_nil, or_false] at hs hl
  rcases hs with h1 | h1 | h1 <;> rcases hl with h2 | h2 | h2 <;> rw [h1, h2] <;> decide

/-- C4 witness: applied to concrete inputs with risks `low` and `high`. -/
theorem claim_C4_witness :
    ((SimilarCompaniesResult.mk [] "low").confusion_risk ∈
      (["low", "medium", "high"] : List String)) ∧
    ((SimilarCompaniesResult.mk [] "high").confusion_risk ∈
      (["low", "medium", "high"] : List String)) ∧
    merge_similar_results (SimilarCompaniesResult.mk [] "low")
        (SimilarCompaniesResult.mk [] "high") =
      reconcile_spec (SimilarCompaniesResult.mk [] "low")
        (SimilarCompaniesResult.mk [] "high") :=
  ⟨by decide, by decide, claim_C4 _ _ (by decide) (by decide)⟩

lemma fold_penalty (s : List Char) :
    ∀ (pats : List (List Char)) (b : ℚ),
      pats.foldl (fun acc pat => if containsSub pat s then acc - 1.5 else acc) b =
        b - 1.5 * ((pats.filter (fun pat => containsSub pat s)).length : ℚ) := by
  intro pats
  induction pats with
  | nil => intro b; simp
  | cons p ps ih =>
    intro b
    by_cases hp : containsSub p s
    · rw [List.foldl_cons, if_pos hp, ih, List.filter_cons, if_pos hp, List.length_cons]
      push_cast
      ring
    · rw [List.foldl_cons, if_neg hp, ih, List.filter_cons, if_neg hp]

/-- Closed form of the pronunciation score: base score minus 1.5 per
distinct difficult cluster contained in the lower-cased name (each cluster
counted once no matter how often it occurs), clamped to `[0, 10]`. -/
lemma pron_score_closed (name : List Char) :
    (analyze_pronunciation name).score =
      max 0 (min 10 (base_from_syllables (count_syllables name) -
        1.5 * ((difficult_patterns.filter
          (fun pat => containsSub pat (lowerStr name))).length : ℚ))) := by
  simp only [analyze_pronunciation]
  rw [fold_penalty]

/-- C7 (corrected).  The pronunciation score subtracts 1.5 once per distinct
difficult cluster that appears in the lower-cased name — a membership test,
not an occurrence count — and clamps the result to `[0, 10]`. -/
theorem claim_C7 (name : List Char) :
    (analyze_pronunciation name).score =
      max 0 (min 10 (base_from_syllables (count_syllables name) -
        1.5 * ((difficult_patterns.filter
          (fun pat => containsSub pat (lowerStr name))).length : ℚ))) :=
  pron_score_closed name

/-- C7 counterexample: `"tchtch"` contains the cluster `tch` twice; the code
subtracts 1.5 once (score 7.5), while the per-occurrence reading of the
claim would subtract 3.0 (score 6.0). -/
theorem claim_C7_counterexample :
    (analyze_pronunciation ("tchtch".toList)).score ≠
      max 0 (min 10 (base_from_syllables (count_syllables ("tchtch".toList)) -
        1.5 * (((difficult_patterns.map
          (fun pat => occurrence_count pat (lowerStr ("tchtch".toList)))).sum : ℚ)))) := by
  rw [pron_score_closed]
  have h1 : count_syllables ("tchtch".toList) = 1 := by decide
  have h2 : (difficult_patterns.filter
      (fun pat => containsSub pat (lowerStr ("tchtch".toList)))).length = 1 := by decide
  have h3 : (difficult_patterns.map
      (fun pat => occurrence_count pat (lowerStr ("tchtch".toList)))).sum = 2 := by decide
  rw [h1, h2, h3]
  have h4 : base_from_syllables 1 = 9 := by norm_num [base_from_syllables]
  rw [h4]
  norm_num

lemma lookup_problematic_none (nl : List Char)
    (h1 : nl ≠ "mist".toList) (h2 : nl ≠ "fart".toList) (h3 : nl ≠ "nova".toList) :
    List.lookup nl problematic = none := by
  have e1 : (nl == ['m', 'i', 's', 't']) = false := beq_eq_false_iff_ne.mpr h1
  have e2 : (nl == ['f', 'a', 'r', 't']) = false := beq_eq_false_iff_ne.mpr h2
  have e3 : (nl == ['n', 'o', 'v', 'a']) = false := beq_eq_false_iff_ne.mpr h3
  simp [problematic, List.lookup, e1, e2, e3]

lemma intl_count (name : List Char) :
    ((check_international name).filter (fun p => p.2.has_issue)).length = 0 ∨
    ((check_international name).filter (fun p => p.2.has_issue)).length = 1 := by
  by_cases h1 : lowerStr name = "mist".toList
  · right
    simp only [check_international, h1]
    decide
  by_cases h2 : lowerStr name = "fart".toList
  · left
    simp only [check_international, h2]
    decide
  by_cases h3 : lowerStr name = "nova".toList
  · right
    simp only [check_international, h3]
    decide
  · left
    have hl := lookup_problematic_none (lowerStr name) h1 h2 h3
    simp [check_international, hl]

lemma intl_keys (name : List Char) :
    (check_international name).map Prod.fst =
      ["spanish", "french", "german", "mandarin", "japanese", "portuguese", "arabic"] := by
  simp [check_international, languages]

/-- C10 (confirmed).  `check_international` returns an entry for exactly the
seven checked languages, at most one of them flagged (only `mist`/german and
`nova`/spanish can fire — the `fart` entry names a language that is not
checked), so the international sub-score is always 80 or 100. -/
theorem claim_C10 (name : List Char) :
    ((check_international name).map Prod.fst =
      ["spanish", "french", "german", "mandarin", "japanese", "portuguese", "arabic"]) ∧
    ((check_international name).filter (fun p => p.2.has_issue)).length ≤ 1 ∧
    (calc_international_score (check_international name) = 80 ∨
      calc_international_score (check_international name) = 100) := by
  have hne : (check_international name).isEmpty = false := by
    simp [check_international, languages]
  have hval : calc_international_score (check_international name) =
      max 0 (100 - (((check_international name).filter
        (fun p => p.2.has_issue)).length : ℚ) * 20) := by
    simp [calc_international_score, hne]
  refine ⟨intl_keys name, ?_, ?_⟩
  · rcases intl_count name with h | h <;> omega
  · rcases intl_count name with h | h
    · right
      rw [hval, h]
      norm_num
    · left
      rw [hval, h]
      norm_num

lemma lookup_getD_true_iff (d : List (String × Bool)) (k : String)
    (hnd : (d.map Prod.fst).Nodup) :
    ((List.lookup k d).getD false = true) ↔ (k, true) ∈ d := by
  induction d with
  | nil => simp [List.lookup]
  | cons p rest ih =>
    obtain ⟨k0, v0⟩ := p
    rw [List.map_cons, List.nodup_cons] at hnd
    obtain ⟨hk0, hnd2⟩ := hnd
    by_cases hk : k = k0
    · subst hk
      have hbeq : (k == k) = true := beq_self_eq_true k
      rw [List.lookup_cons]
      simp only [hbeq, Option.getD_some]
      constructor
      · intro hv
        subst hv
        exact List.mem_cons_self _ _
      · intro hm
        rcases List.mem_cons.mp hm with he | hm2
        · exact (Prod.mk.injEq _ _ _ _ ▸ he).2.symm
        · exact absurd (List.mem_map_of_mem Prod.fst hm2) hk0
    · have hbeq : (k == k0) = false := beq_eq_false_iff_ne.mpr hk
      rw [List.lookup_cons]
      simp only [hbeq]
      rw [ih hnd2]
      constructor
      · exact fun h => List.mem_cons_of_mem _ h
      · intro hm
        rcases List.mem_cons.mp hm with he | hm2
        · exact absurd (congrArg Prod.fst he) hk
        · exact hm2

lemma filter_keys_eq (d : List (String × Bool)) :
    (d.map Prod.fst).filter (fun t => decide (t ≠ ".com")) =
      (d.filter (fun p => decide (p.1 ≠ ".com"))).map Prod.fst := by
  induction d with
  | nil => rfl
  | cons p rest ih =>
    by_cases hc : p.1 = ".com"
    · simp only [List.map_cons, List.filter_cons, hc]
      simpa using ih
    · simp only [List.map_cons, List.filter_cons]
      simp only [List.map_cons] at ih ⊢
      simp [hc]
      simpa using ih

lemma avail_count_eq (d : List (String × Bool)) (hnd : (d.map Prod.fst).Nodup) :
    ((d.map Prod.fst).filter
        (fun t => ((List.lookup t d).getD false) && decide (t ≠ ".com"))).length =
      (d.filter (fun p => decide (p.1 ≠ ".com" ∧ p.2 = true))).length := by
  induction d with
  | nil => rfl
  | cons p rest ih =>
    obtain ⟨k, v⟩ := p
    rw [List.map_cons, List.nodup_cons] at hnd
    obtain ⟨hk0, hnd2⟩ := hnd
    have hlk : (List.lookup k ((k, v) :: rest)).getD false = v := by
      rw [List.lookup_cons]
      simp [beq_self_eq_true]
    have htail : (rest.map Prod.fst).filter
          (fun t => ((List.lookup t ((k, v) :: rest)).getD false) && decide (t ≠ ".com")) =
        (rest.map Prod.fst).filter
          (fun t => ((List.lookup t rest).getD false) && decide (t ≠ ".com")) := by
      refine List.filter_congr ?_
      intro t ht
      have htk : (t == k) = false :=
        beq_eq_false_iff_ne.mpr (fun he => hk0 (he ▸ ht))
      rw [List.lookup_cons]
      simp only [htk]
    have ih2 := ih hnd2
    cases v
    · simp at htail
      simp [List.filter_cons, hlk]
      rw [htail]
      simpa using ih2
    · by_cases hc : k = ".com"
      · subst hc
        simp at htail
        simp [List.filter_cons, hlk]
        rw [htail]
        simpa using ih2
      · simp at htail
        simp [List.filter_cons, hlk, hc]
        rw [htail]
        simpa using ih2

/-- Closed form of `_calc_domain_score` over a dict with distinct keys:
50 points when `.com` maps to available, plus the available fraction of the
other TLDs scaled to 50 when any exist. -/
lemma calc_domain_score_formula (d : List (String × Bool))
    (hnd : (d.map Prod.fst).Nodup) (hne : d ≠ []) :
    calc_domain_score d =
      (if (".com", true) ∈ d then (50 : ℚ) else 0) +
      (if d.filter (fun p => decide (p.1 ≠ ".com")) ≠ [] then
        (((d.filter (fun p => decide (p.1 ≠ ".com" ∧ p.2 = true))).length : ℚ) /
          ((d.filter (fun p => decide (p.1 ≠ ".com"))).length : ℚ)) * 50
      else 0) := by
  have hempty : d.isEmpty = false := by
    cases d
    · exact absurd rfl hne
    · rfl
  have hcom := lookup_getD_true_iff d ".com" hnd
  have hkeys := filter_keys_eq d
  simp only [calc_domain_score, hempty, Bool.false_eq_true, if_false]
  rw [List.filter_filter, avail_count_eq d hnd, hkeys, List.length_map]
  congr 1
  · by_cases hm : (".com", true) ∈ d
    · rw [if_pos (hcom.mpr hm), if_pos hm]
    · rw [if_neg (fun hx => hm (hcom.mp hx)), if_neg hm]
  · by_cases hfe : d.filter (fun p => decide (p.1 ≠ ".com")) = []
    · rw [hfe]
      simp
    · have hfe2 : ¬((d.filter (fun p => decide (p.1 ≠ ".com"))).map Prod.fst).isEmpty = true := by
        rw [List.isEmpty_iff, List.map_eq_nil_iff]
        exact hfe
      rw [if_pos hfe2, if_pos hfe]

/-- C6 (confirmed).  The domain sub-score is 0 for an empty map; otherwise
it is 50 points when `.com` is mapped available, plus 50 times the available
fraction of the non-`.com` TLDs when at least one exists.  Over the default
five TLDs: all available scores 100, none scores 0, and only `.com`
available scores 50. -/
theorem claim_C6 :
    calc_domain_score [] = 0 ∧
    (∀ (d : List (String × Bool)), (d.map Prod.fst).Nodup → d ≠ [] →
      calc_domain_score d =
        (if (".com", true) ∈ d then (50 : ℚ) else 0) +
        (if d.filter (fun p => decide (p.1 ≠ ".com")) ≠ [] then
          (((d.filter (fun p => decide (p.1 ≠ ".com" ∧ p.2 = true))).length : ℚ) /
            ((d.filter (fun p => decide (p.1 ≠ ".com"))).length : ℚ)) * 50
        else 0)) ∧
    calc_domain_score (DEFAULT_TLDS.map (fun t => (t, true))) = 100 ∧
    calc_domain_score (DEFAULT_TLDS.map (fun t => (t, false))) = 0 ∧
    calc_domain_score (DEFAULT_TLDS.map (fun t => (t, decide (t = ".com")))) = 50 := by
  refine ⟨rfl, calc_domain_score_formula, ?_, ?_, ?_⟩
  · rw [calc_domain_score_formula _ (by decide) (by decide)]
    rw [show (DEFAULT_TLDS.map (fun t => (t, true))).filter (fun p => decide (p.1 ≠ ".com")) =
        [(".io", true), (".co", true), (".ai", true), (".app", true)] from rfl]
    rw [show (DEFAULT_TLDS.map (fun t => (t, true))).filter
          (fun p => decide (p.1 ≠ ".com" ∧ p.2 = true)) =
        [(".io", true), (".co", true), (".ai", true), (".app", true)] from rfl]
    rw [if_pos (show ((".com" : String), true) ∈ DEFAULT_TLDS.map (fun t => (t, true)) by decide)]
    rw [if_pos (show ([(".io", true), (".co", true), (".ai", true), (".app", true)] :
        List (String × Bool)) ≠ [] by decide)]
    norm_num
  · rw [calc_domain_score_formula _ (by decide) (by decide)]
    rw [show (DEFAULT_TLDS.map (fun t => (t, false))).filter (fun p => decide (p.1 ≠ ".com")) =
        [(".io", false), (".co", false), (".ai", false), (".app", false)] from rfl]
    rw [show (DEFAULT_TLDS.map (fun t => (t, false))).filter
          (fun p => decide (p.1 ≠ ".com" ∧ p.2 = true)) = ([] : List (String × Bool)) from rfl]
    rw [if_neg (show ¬(((".com" : String), true) ∈ DEFAULT_TLDS.map (fun t => (t, false)))
        by decide)]
    rw [if_pos (show ([(".io", false), (".co", false), (".ai", false), (".app", false)] :
        List (String × Bool)) ≠ [] by decide)]
    norm_num
  · rw [calc_domain_score_formula _ (by decide) (by decide)]
    rw [show (DEFAULT_TLDS.map (fun t => (t, decide (t = ".com")))).filter
          (fun p => decide (p.1 ≠ ".com")) =
        [(".io", false), (".co", false), (".ai", false), (".app", false)] from rfl]
    rw [show (DEFAULT_TLDS.map (fun t => (t, decide (t = ".com")))).filter
          (fun p => decide (p.1 ≠ ".com" ∧ p.2 = true)) = ([] : List (String × Bool)) from rfl]
    rw [if_pos (show ((".com" : String), true) ∈
        DEFAULT_TLDS.map (fun t => (t, decide (t = ".com"))) by decide)]
    rw [if_pos (show ([(".io", false), (".co", false), (".ai", false), (".app", false)] :
        List (String × Bool)) ≠ [] by decide)]
    norm_num

/-- C6 witness: the general formula applied to the concrete two-entry map
`{.com: true, .io: false}`. -/
theorem claim_C6_witness :
    (([(".com", true), (".io", false)] : List (String × Bool)).map Prod.fst).Nodup ∧
    ([(".com", true), (".io", false)] : List (String × Bool)) ≠ [] ∧
    calc_domain_score [(".com", true), (".io", false)] =
      (if (".com", true) ∈ ([(".com", true), (".io", false)] : List (String × Bool)) then
        (50 : ℚ) else 0) +
      (if ([(".com", true), (".io", false)] : List (String × Bool)).filter
          (fun p => decide (p.1 ≠ ".com")) ≠ [] then
        (((([(".com", true), (".io", false)] : List (String × Bool)).filter
            (fun p => decide (p.1 ≠ ".com" ∧ p.2 = true))).length : ℚ) /
          ((([(".com", true), (".io", false)] : List (String × Bool)).filter
            (fun p => decide (p.1 ≠ ".com"))).length : ℚ)) * 50
      else 0) :=
  ⟨by decide, by decide, claim_C6.2.1 _ (by decide) (by decide)⟩

lemma filter_length_mono {α : Type} (p q : α → Bool) (l : List α)
    (h : ∀ a, p a = true → q a = true) : (l.filter p).length ≤ (l.filter q).length := by
  induction l with
  | nil => simp
  | cons a t ih =>
    by_cases hp : p a = true
    · rw [List.filter_cons, List.filter_cons, if_pos hp, if_pos (h a hp)]
      simpa using ih
    · rw [List.filter_cons, List.filter_cons, if_neg hp]
      split_ifs
      · exact le_trans ih (Nat.le_succ _)
      · exact ih

lemma check_domains_keys (w : List Char → Bool) (name : List Char) :
    (check_domains w name).map Prod.fst = DEFAULT_TLDS := by
  show (DEFAULT_TLDS.map (fun tld => (tld, !w (lowerStr name ++ tld.toList)))).map Prod.fst =
    DEFAULT_TLDS
  rw [List.map_map]
  have h : (Prod.fst ∘ fun tld : String => (tld, !w (lowerStr name ++ tld.toList))) = id :=
    funext (fun t => rfl)
  rw [h, List.map_id]

lemma check_domains_score_bounds (w : List Char → Bool) (name : List Char) :
    0 ≤ calc_domain_score (check_domains w name) ∧
      calc_domain_score (check_domains w name) ≤ 100 := by
  have hnd : ((check_domains w name).map Prod.fst).Nodup := by
    rw [check_domains_keys]
    decide
  have hne : check_domains w name ≠ [] := by
    simp [check_domains, DEFAULT_TLDS]
  rw [calc_domain_score_formula _ hnd hne]
  by_cases hfe : (check_domains w name).filter (fun p => decide (p.1 ≠ ".com")) = []
  · rw [if_neg (show ¬((check_domains w name).filter
        (fun p => decide (p.1 ≠ ".com")) ≠ []) from fun hx => hx hfe)]
    split_ifs <;> constructor <;> norm_num
  · rw [if_pos hfe]
    have hpos : 0 < (((check_domains w name).filter
        (fun p => decide (p.1 ≠ ".com"))).length : ℚ) := by
      have := List.length_pos.mpr hfe
      exact_mod_cast this
    have hmono : ((check_domains w name).filter
          (fun p => decide (p.1 ≠ ".com" ∧ p.2 = true))).length ≤
        ((check_domains w name).filter (fun p => decide (p.1 ≠ ".com"))).length := by
      apply filter_length_mono
      intro a ha
      simp only [decide_eq_true_eq] at ha ⊢
      exact ha.1
    have hfrac0 : (0 : ℚ) ≤ (((check_domains w name).filter
          (fun p => decide (p.1 ≠ ".com" ∧ p.2 = true))).length : ℚ) /
        (((check_domains w name).filter (fun p => decide (p.1 ≠ ".com"))).length : ℚ) := by
      positivity
    have hfrac1 : (((check_domains w name).filter
          (fun p => decide (p.1 ≠ ".com" ∧ p.2 = true))).length : ℚ) /
        (((check_domains w name).filter (fun p => decide (p.1 ≠ ".com"))).length : ℚ) ≤ 1 := by
      rw [div_le_one hpos]
      exact_mod_cast hmono
    split_ifs <;> constructor <;> nlinarith

lemma calc_social_check (name : List Char) : calc_social_score (check_social name) = 100 := by
  show calc_social_score [("twitter", true), ("instagram", true), ("linkedin", true),
    ("tiktok", true), ("github", true)] = 100
  norm_num [calc_social_score, List.filter]

lemma pron_score_bounds (name : List Char) :
    0 ≤ (analyze_pronunciation name).score ∧ (analyze_pronunciation name).score ≤ 10 := by
  rw [pron_score_closed]
  exact ⟨le_max_left _ _, max_le (by norm_num) (min_le_left _ _)⟩

lemma calc_international_score_bounds (l : List (String × LangCheck)) :
    0 ≤ calc_international_score l ∧ calc_international_score l ≤ 100 := by
  simp only [calc_international_score]
  split_ifs with h
  · constructor <;> norm_num
  · constructor
    · exact le_max_left _ _
    · refine max_le (by norm_num) ?_
      have hnn : (0 : ℚ) ≤ ((l.filter (fun p => p.2.has_issue)).length : ℚ) * 20 := by
        positivity
      linarith

lemma calc_similar_companies_score_bounds (r : SimilarCompaniesResult) :
    0 ≤ calc_similar_companies_score r ∧ calc_similar_companies_score r ≤ 100 := by
  simp only [calc_similar_companies_score]
  split_ifs <;> constructor <;> norm_num

/-- C1 (confirmed).  Every evaluation's `overall_score` is exactly the fixed
affine combination `0.20*domain + 0.10*social + 0.20*trademark +
0.15*pronunciation + 0.15*international + 0.20*similarCompanies` of the six
sub-scores stored in the same result record, and it always lies in
`[0, 100]`, for every WHOIS outcome, API-key configuration, oracle outcome,
name and mission. -/
theorem claim_C1 (whoisFound : List Char → Bool) (hasApiKey : Bool)
    (llmSimilar : Except Unit SimilarCompaniesResult)
    (llmPerception : Except Unit PerceptionResult)
    (name : List Char) (mission : Option (List Char)) :
    (evaluate whoisFound hasApiKey llmSimilar llmPerception name mission).overall_score =
      0.20 * (evaluate whoisFound hasApiKey llmSimilar llmPerception name mission).domain_score +
      0.10 * (evaluate whoisFound hasApiKey llmSimilar llmPerception name mission).social_score +
      0.20 * (evaluate whoisFound hasApiKey llmSimilar llmPerception name
        mission).trademark_score +
      0.15 * (evaluate whoisFound hasApiKey llmSimilar llmPerception name
        mission).pronunciation_score +
      0.15 * (evaluate whoisFound hasApiKey llmSimilar llmPerception name
        mission).international_score +
      0.20 * (evaluate whoisFound hasApiKey llmSimilar llmPerception name
        mission).similar_companies_score ∧
    0 ≤ (evaluate whoisFound hasApiKey llmSimilar llmPerception name mission).overall_score ∧
    (evaluate whoisFound hasApiKey llmSimilar llmPerception name mission).overall_score ≤ 100 := by
  obtain ⟨hd0, hd1⟩ := check_domains_score_bounds whoisFound name
  have hss := calc_social_check name
  have hts : calc_trademark_score (check_trademark name) = 100 := rfl
  obtain ⟨hp0, hp1⟩ := pron_score_bounds name
  obtain ⟨hi0, hi1⟩ := calc_international_score_bounds (check_international name)
  obtain ⟨hc0, hc1⟩ := calc_similar_companies_score_bounds
    (find_similar_companies hasApiKey llmSimilar name)
  refine ⟨?_, ?_, ?_⟩ <;> simp only [evaluate]
  · ring
  · rw [hss, hts]
    linarith
  · rw [hss, hts]
    linarith

end Brandval
